import Mathlib

/-!
Shallow embedding of the `bhwi` Ledger session interpreter
(`src/bhwi/src/ledger/mod.rs`) and of the spec-described frame codec,
delegated store and Merkle tree (modules `apdu`, `store`, `merkle` are
declared by `mod.rs` but their sources are not in the repository snapshot;
they are modelled from the specification where needed).

Bytes are modelled as `List Nat`; a status word is the big-endian value of
the final two response bytes.
-/

namespace Bhwi

/-- A byte string. -/
abbrev Bytes := List Nat

/-- Modelled from the spec: the status-word table of the missing `apdu.rs`.
Known codes `0x9000` OK, `0xE000` InterruptedExecution, `0x6E00`
ClaNotSupported; every unrecognized code decodes to a catch-all variant
carrying the raw code. -/
inductive StatusWord where
  | ok
  | interruptedExecution
  | claNotSupported
  | unknown (code : Nat)
deriving DecidableEq, Repr

/-- Modelled from the spec: the code-to-variant table for status words. -/
def StatusWord.fromCode (code : Nat) : StatusWord :=
  if code = 0x9000 then StatusWord.ok
  else if code = 0xE000 then StatusWord.interruptedExecution
  else if code = 0x6E00 then StatusWord.claNotSupported
  else StatusWord.unknown code

/-- Modelled from the spec: decode errors of the missing `apdu.rs`; the only
decode failure described is a buffer shorter than the status-word width. -/
inductive ApduError where
  | malformed
deriving DecidableEq, Repr

/-- Modelled from the spec: store errors of the missing `store.rs`
(unknown Merkle index or preimage, out-of-range leaf index). -/
inductive StoreError where
  | notFound
  | outOfRange
deriving DecidableEq, Repr

/-- The `bitcoin` crate's network enum, as used by `LedgerCommand::OpenApp`. -/
inductive Network where
  | bitcoin
  | testnet
  | signet
  | regtest
deriving DecidableEq, Repr

/-- Modelled from the spec: the command frames built by the missing
`command.rs` encoders.  The claims never inspect frame bytes, so a frame is
modelled as the tag of the encoder that produced it together with the
encoder's inputs (section 4.2 of the spec). -/
inductive ApduCommand where
  | getMasterFingerprint
  | getExtendedPubkey (path : List Nat) (display : Bool)
  | openApp (network : Network)
  | continueInterrupted (data : Bytes)
deriving DecidableEq, Repr

/-- A decoded response frame: payload bytes plus the status word
(`ApduResponse` of the missing `apdu.rs`). -/
structure ApduResponse where
  data : Bytes
  status_word : StatusWord
deriving DecidableEq, Repr

/-- Modelled from the spec: `ApduResponse::try_from` of the missing
`apdu.rs`.  The final two bytes are the big-endian status word and
everything before is the payload; a buffer shorter than the status-word
width fails as malformed. -/
def ApduResponse.tryFrom (data : Bytes) : Except ApduError ApduResponse :=
  if data.length < 2 then Except.error ApduError.malformed
  else Except.ok
    { data := data.take (data.length - 2)
      status_word := StatusWord.fromCode
        (256 * data.getD (data.length - 2) 0 + data.getD (data.length - 1) 0) }

/-- Modelled from the spec: the delegated store of the missing `store.rs`,
reduced to its interface used by `exchange`: `execute` maps the client
command carried in an interrupted response's payload to either a store
error or the continuation bytes of exactly one new command frame. -/
def DelegatedStore := Bytes → Except StoreError Bytes

/-- An extended public key as produced by the external `bitcoin` crate's
parser; the interpreter treats it opaquely, so it is modelled abstractly. -/
abbrev Xpub := List Nat

/-- `LedgerCommand` of `mod.rs`. -/
inductive LedgerCommand where
  | openApp (network : Network)
  | getMasterFingerprint
  | getXpub (path : List Nat) (display : Bool)
deriving DecidableEq, Repr

/-- `LedgerResponse` of `mod.rs`; a fingerprint is its 4 bytes. -/
inductive LedgerResponse where
  | taskDone
  | masterFingerprint (fg : Bytes)
  | xpub (x : Xpub)
deriving DecidableEq, Repr

/-- `LedgerError` of `mod.rs`. -/
inductive LedgerError where
  | missingCommandInfo (info : String)
  | noErrorOrResult
  | apdu (e : ApduError)
  | store (e : StoreError)
  | interrupted
  | unexpectedResult (data : Bytes)
  | failedToOpenApp (data : Bytes)
deriving DecidableEq, Repr

/-- The session state of `mod.rs`: `New`, `Running { command, store }`,
`Finished(response)`. -/
inductive State where
  | new
  | running (command : LedgerCommand) (store : Option DelegatedStore)
  | finished (response : LedgerResponse)

namespace LedgerInterpreter

/-- `LedgerInterpreter::start`.  The generic `C: TryInto<LedgerCommand>` of
the Rust impl is modelled by the conversion function `conv`; the generic
`T: From<ApduCommand>` at the identity instance.  The state is threaded
explicitly: the pair's second component is `self.state` after the call, and
on an error the state is the untouched input state. -/
def start {Cmd : Type} (conv : Cmd → Except LedgerError LedgerCommand)
    (s : State) (c : Cmd) : Except LedgerError ApduCommand × State :=
  match conv c with
  | Except.error e => (Except.error e, s)
  | Except.ok command =>
    let ts : ApduCommand × Option DelegatedStore :=
      match command with
      | LedgerCommand.getMasterFingerprint =>
          (ApduCommand.getMasterFingerprint, none)
      | LedgerCommand.getXpub path display =>
          (ApduCommand.getExtendedPubkey path display, none)
      | LedgerCommand.openApp network =>
          (ApduCommand.openApp network, none)
    (Except.ok ts.1, State.running command ts.2)

/-- `LedgerInterpreter::exchange`.  `xparse` models the external
`Xpub::from_str` parser of the `bitcoin` crate (over the lossy-UTF-8 view
of the payload); the pair's second component is `self.state` after the
call, and every early `return Err(..)` leaves the state untouched. -/
def exchange (xparse : Bytes → Option Xpub) (s : State) (data : Bytes) :
    Except LedgerError (Option ApduCommand) × State :=
  match s with
  | State.running command store =>
    match ApduResponse.tryFrom data with
    | Except.error e => (Except.error (LedgerError.apdu e), State.running command store)
    | Except.ok res =>
      if res.status_word = StatusWord.interruptedExecution then
        match store with
        | some st =>
          match st res.data with
          | Except.error e =>
              (Except.error (LedgerError.store e), State.running command store)
          | Except.ok transmit =>
              (Except.ok (some (ApduCommand.continueInterrupted transmit)),
                State.running command store)
        | none => (Except.error LedgerError.interrupted, State.running command store)
      else
        match command with
        | LedgerCommand.getMasterFingerprint =>
          if res.data.length < 4 then
            (Except.error (LedgerError.unexpectedResult res.data),
              State.running command store)
          else
            (Except.ok none,
              State.finished (LedgerResponse.masterFingerprint (res.data.take 4)))
        | LedgerCommand.getXpub path display =>
          match xparse res.data with
          | none =>
              (Except.error (LedgerError.unexpectedResult res.data),
                State.running (LedgerCommand.getXpub path display) store)
          | some x => (Except.ok none, State.finished (LedgerResponse.xpub x))
        | LedgerCommand.openApp network =>
          if res.status_word = StatusWord.ok ∨
              res.status_word = StatusWord.claNotSupported then
            (Except.ok none, State.finished LedgerResponse.taskDone)
          else
            (Except.error (LedgerError.unexpectedResult res.data),
              State.running (LedgerCommand.openApp network) store)
  | _ => (Except.ok none, s)

/-- `LedgerInterpreter::end`: consumes the session; `Finished` yields the
result, any other state fails with `NoErrorOrResult`. -/
def endSession (s : State) : Except LedgerError LedgerResponse :=
  match s with
  | State.finished res => Except.ok res
  | _ => Except.error LedgerError.noErrorOrResult

end LedgerInterpreter

/-- One lifecycle call of the interpreter: a `start` with some input
command, or an `exchange` with some response bytes. -/
inductive Act (Cmd : Type) where
  | start (c : Cmd)
  | exchange (data : Bytes)

/-- The session state after one lifecycle call (errors leave it unchanged). -/
def applyAct {Cmd : Type} (conv : Cmd → Except LedgerError LedgerCommand)
    (xparse : Bytes → Option Xpub) (s : State) : Act Cmd → State
  | Act.start c => (LedgerInterpreter.start conv s c).2
  | Act.exchange data => (LedgerInterpreter.exchange xparse s data).2

/-- The session state after a sequence of lifecycle calls. -/
def runActs {Cmd : Type} (conv : Cmd → Except LedgerError LedgerCommand)
    (xparse : Bytes → Option Xpub) (s : State) (acts : List (Act Cmd)) : State :=
  acts.foldl (applyAct conv xparse) s

/-- Modelled from the spec: one pairwise-hash level of the Merkle tree of
the missing `merkle.rs`.  Adjacent sibling nodes are hashed in order by the
abstract combining hash `hNode`; an odd trailing node is promoted unchanged
(the spec leaves the odd-count rule open, it is fixed here as promotion). -/
def hashLevel (hNode : Nat → Nat → Nat) : List Nat → List Nat
  | [] => []
  | [x] => [x]
  | x :: y :: rest => hNode x y :: hashLevel hNode rest

/-- Fuel-indexed iteration of `hashLevel` down to a single root hash.  Each
level at least halves a list of two or more nodes, so any fuel of at least
the list length computes the fixed point (`merkleRootAux_congr`). -/
def merkleRootAux (hNode : Nat → Nat → Nat) : Nat → List Nat → Nat
  | 0, xs => xs.headD 0
  | fuel + 1, xs =>
    if xs.length ≤ 1 then xs.headD 0
    else merkleRootAux hNode fuel (hashLevel hNode xs)

/-- Modelled from the spec: the root of the Merkle tree over a list of node
hashes, by recursive pairwise hashing of sibling nodes level by level. -/
def merkleRoot (hNode : Nat → Nat → Nat) (xs : List Nat) : Nat :=
  merkleRootAux hNode xs.length xs

/-- Fuel-indexed construction of the sibling-hash path from node position
`i` up the levels; the fuel plays the same role as in `merkleRootAux`. -/
def merklePathAux (hNode : Nat → Nat → Nat) :
    Nat → List Nat → Nat → List (Bool × Nat)
  | 0, _, _ => []
  | fuel + 1, xs, i =>
    if xs.length ≤ 1 then []
    else if i % 2 = 0 then
      if i + 1 < xs.length then
        (true, xs.getD (i + 1) 0) ::
          merklePathAux hNode fuel (hashLevel hNode xs) (i / 2)
      else merklePathAux hNode fuel (hashLevel hNode xs) (i / 2)
    else (false, xs.getD (i - 1) 0) ::
      merklePathAux hNode fuel (hashLevel hNode xs) (i / 2)

/-- Modelled from the spec: the sibling-hash path from leaf position `i` to
the root; each element records whether the sibling sits to the right
(`true`) or to the left (`false`) together with its hash.  A promoted odd
trailing node contributes no path element at its level. -/
def merklePath (hNode : Nat → Nat → Nat) (xs : List Nat) (i : Nat) :
    List (Bool × Nat) :=
  merklePathAux hNode xs.length xs i

/-- Recombining a leaf hash with a sibling-hash path: fold the combining
hash over the path in order, putting the sibling on the recorded side. -/
def verifyPath (hNode : Nat → Nat → Nat) (leaf : Nat) : List (Bool × Nat) → Nat
  | [] => leaf
  | (b, sib) :: rest =>
      verifyPath hNode (if b then hNode leaf sib else hNode sib leaf) rest

/-- Modelled from the spec: the Merkle tree of the missing `merkle.rs`,
built once from an ordered sequence of leaf byte-strings; immutable after
construction. -/
structure MerkleTree where
  leaves : List Bytes
deriving DecidableEq, Repr

/-- Modelled from the spec: the derived root, where `hLeaf` hashes a leaf
byte-string to its leaf node hash and `hNode` combines two siblings. -/
def MerkleTree.root (hLeaf : Bytes → Nat) (hNode : Nat → Nat → Nat)
    (t : MerkleTree) : Nat :=
  merkleRoot hNode (t.leaves.map hLeaf)

/-- Modelled from the spec: `proof(index)` of the missing `merkle.rs`
returns the leaf value plus the sibling-hash path to the root and fails
with out-of-range for index ≥ leaf count. -/
def MerkleTree.proof (hLeaf : Bytes → Nat) (hNode : Nat → Nat → Nat)
    (t : MerkleTree) (i : Nat) :
    Except StoreError (Bytes × List (Bool × Nat)) :=
  if i < t.leaves.length then
    Except.ok (t.leaves.getD i [], merklePath hNode (t.leaves.map hLeaf) i)
  else Except.error StoreError.outOfRange

theorem hashLevel_length (hNode : Nat → Nat → Nat) :
    ∀ xs : List Nat, (hashLevel hNode xs).length = (xs.length + 1) / 2
  | [] => rfl
  | [_] => by simp [hashLevel]
  | x :: y :: rest => by
      simp only [hashLevel, List.length_cons, hashLevel_length hNode rest]
      omega

theorem merkleRootAux_congr (hNode : Nat → Nat → Nat) (xs : List Nat) :
    ∀ (n m : Nat), xs.length ≤ n → xs.length ≤ m →
      merkleRootAux hNode n xs = merkleRootAux hNode m xs := by
  intro n m hn hm
  by_cases h1 : xs.length ≤ 1
  · cases n <;> cases m <;> simp only [merkleRootAux, if_pos h1]
  · cases n with
    | zero => exact absurd hn (by omega)
    | succ n' =>
      cases m with
      | zero => exact absurd hm (by omega)
      | succ m' =>
        simp only [merkleRootAux, if_neg h1]
        exact merkleRootAux_congr hNode (hashLevel hNode xs) n' m'
          (by rw [hashLevel_length]; omega) (by rw [hashLevel_length]; omega)
termination_by xs.length
decreasing_by rw [hashLevel_length]; omega

theorem merklePathAux_congr (hNode : Nat → Nat → Nat) (xs : List Nat) :
    ∀ (i n m : Nat), xs.length ≤ n → xs.length ≤ m →
      merklePathAux hNode n xs i = merklePathAux hNode m xs i := by
  intro i n m hn hm
  by_cases h1 : xs.length ≤ 1
  · cases n <;> cases m <;> simp only [merklePathAux, if_pos h1]
  · cases n with
    | zero => exact absurd hn (by omega)
    | succ n' =>
      cases m with
      | zero => exact absurd hm (by omega)
      | succ m' =>
        simp only [merklePathAux, if_neg h1]
        rw [merklePathAux_congr hNode (hashLevel hNode xs) (i / 2) n' m'
          (by rw [hashLevel_length]; omega) (by rw [hashLevel_length]; omega)]
termination_by xs.length
decreasing_by rw [hashLevel_length]; omega

theorem merkleRoot_base (hNode : Nat → Nat → Nat) (xs : List Nat)
    (h : xs.length ≤ 1) : merkleRoot hNode xs = xs.headD 0 := by
  have h01 : xs.length = 0 ∨ xs.length = 1 := by omega
  unfold merkleRoot
  rcases h01 with h0 | h1
  · rw [h0]
    simp only [merkleRootAux]
  · rw [h1]
    simp only [merkleRootAux, if_pos h]

theorem merkleRoot_step (hNode : Nat → Nat → Nat) (xs : List Nat)
    (h : ¬ xs.length ≤ 1) :
    merkleRoot hNode xs = merkleRoot hNode (hashLevel hNode xs) := by
  have hL : xs.length = (xs.length - 1) + 1 := by omega
  conv_lhs => rw [merkleRoot, hL]
  simp only [merkleRootAux, if_neg h]
  exact merkleRootAux_congr hNode (hashLevel hNode xs) (xs.length - 1)
    ((hashLevel hNode xs).length) (by rw [hashLevel_length]; omega) le_rfl

theorem merklePath_base (hNode : Nat → Nat → Nat) (xs : List Nat) (i : Nat)
    (h : xs.length ≤ 1) : merklePath hNode xs i = [] := by
  have h01 : xs.length = 0 ∨ xs.length = 1 := by omega
  unfold merklePath
  rcases h01 with h0 | h1
  · rw [h0]
    simp only [merklePathAux]
  · rw [h1]
    simp only [merklePathAux, if_pos h]

theorem merklePath_step (hNode : Nat → Nat → Nat) (xs : List Nat) (i : Nat)
    (h : ¬ xs.length ≤ 1) :
    merklePath hNode xs i =
      if i % 2 = 0 then
        if i + 1 < xs.length then
          (true, xs.getD (i + 1) 0) ::
            merklePath hNode (hashLevel hNode xs) (i / 2)
        else merklePath hNode (hashLevel hNode xs) (i / 2)
      else (false, xs.getD (i - 1) 0) ::
        merklePath hNode (hashLevel hNode xs) (i / 2) := by
  have hL : xs.length = (xs.length - 1) + 1 := by omega
  conv_lhs => rw [merklePath, hL]
  simp only [merklePathAux, if_neg h]
  rw [merklePathAux_congr hNode (hashLevel hNode xs) (i / 2) (xs.length - 1)
    ((hashLevel hNode xs).length) (by rw [hashLevel_length]; omega) le_rfl]
  rfl

theorem hashLevel_getD_even (hNode : Nat → Nat → Nat) :
    ∀ (xs : List Nat) (i : Nat), i % 2 = 0 → i + 1 < xs.length →
      (hashLevel hNode xs).getD (i / 2) 0 =
        hNode (xs.getD i 0) (xs.getD (i + 1) 0)
  | [], _, _, h => absurd h (by simp)
  | [_], i, _, h => by simp only [List.length_singleton] at h; omega
  | x :: y :: rest, 0, _, _ => by simp [hashLevel]
  | x :: y :: rest, 1, hpar, _ => by omega
  | x :: y :: rest, j + 2, hpar, h => by
      have hj : j + 1 < rest.length := by
        simp only [List.length_cons] at h; omega
      have hdiv : (j + 2) / 2 = j / 2 + 1 := by omega
      simp only [hashLevel, hdiv, List.getD_cons_succ]
      exact hashLevel_getD_even hNode rest j (by omega) hj

theorem hashLevel_getD_last (hNode : Nat → Nat → Nat) :
    ∀ (xs : List Nat) (i : Nat), i % 2 = 0 → i + 1 = xs.length →
      (hashLevel hNode xs).getD (i / 2) 0 = xs.getD i 0
  | [], _, _, h => by simp at h
  | [x], i, _, h => by
      have hi : i = 0 := by simp only [List.length_singleton] at h; omega
      subst hi; simp [hashLevel]
  | x :: y :: rest, 0, _, h => by simp at h
  | x :: y :: rest, 1, hpar, _ => by omega
  | x :: y :: rest, j + 2, hpar, h => by
      have hj : j + 1 = rest.length := by
        simp only [List.length_cons] at h; omega
      have hdiv : (j + 2) / 2 = j / 2 + 1 := by omega
      simp only [hashLevel, hdiv, List.getD_cons_succ]
      exact hashLevel_getD_last hNode rest j (by omega) hj

theorem hashLevel_getD_odd (hNode : Nat → Nat → Nat) :
    ∀ (xs : List Nat) (i : Nat), i % 2 = 1 → i < xs.length →
      (hashLevel hNode xs).getD (i / 2) 0 =
        hNode (xs.getD (i - 1) 0) (xs.getD i 0)
  | [], _, _, h => absurd h (by simp)
  | [_], i, hpar, h => by simp at h; omega
  | x :: y :: rest, 0, hpar, _ => by omega
  | x :: y :: rest, 1, _, _ => by simp [hashLevel]
  | x :: y :: rest, j + 2, hpar, h => by
      have hj : j < rest.length := by
        simp only [List.length_cons] at h; omega
      have hdiv : (j + 2) / 2 = j / 2 + 1 := by omega
      have hj1 : 1 ≤ j := by omega
      have hsub : j + 2 - 1 = (j - 1) + 2 := by omega
      simp only [hashLevel, hdiv, hsub, List.getD_cons_succ]
      exact hashLevel_getD_odd hNode rest j (by omega) hj

theorem verifyPath_merklePath (hNode : Nat → Nat → Nat) (xs : List Nat)
    (i : Nat) (h : i < xs.length) :
    verifyPath hNode (xs.getD i 0) (merklePath hNode xs i) =
      merkleRoot hNode xs := by
  by_cases h1 : xs.length ≤ 1
  · have hi : i = 0 := by omega
    subst hi
    rw [merklePath_base hNode xs 0 h1, merkleRoot_base hNode xs h1]
    match xs, h with
    | x :: _, _ => simp [verifyPath]
  · have hrec : i / 2 < (hashLevel hNode xs).length := by
      rw [hashLevel_length]; omega
    have ih := verifyPath_merklePath hNode (hashLevel hNode xs) (i / 2) hrec
    rw [merklePath_step hNode xs i h1]
    rw [merkleRoot_step hNode xs h1]
    by_cases hpar : i % 2 = 0
    · by_cases hnext : i + 1 < xs.length
      · rw [if_pos hpar, if_pos hnext, verifyPath]
        rw [hashLevel_getD_even hNode xs i hpar hnext] at ih
        simpa using ih
      · have hlast : i + 1 = xs.length := by omega
        rw [if_pos hpar, if_neg hnext]
        rw [hashLevel_getD_last hNode xs i hpar hlast] at ih
        exact ih
    · have hpar1 : i % 2 = 1 := by omega
      rw [if_neg hpar, verifyPath]
      rw [hashLevel_getD_odd hNode xs i hpar1 h] at ih
      simpa using ih
termination_by xs.length
decreasing_by rw [hashLevel_length]; omega

theorem start_run {Cmd : Type} (conv : Cmd → Except LedgerError LedgerCommand)
    (s : State) (c : Cmd) (cmd : LedgerCommand) (h : conv c = Except.ok cmd) :
    (LedgerInterpreter.start conv s c).2 = State.running cmd none := by
  simp only [LedgerInterpreter.start, h]
  cases cmd <;> rfl

theorem start_error {Cmd : Type} (conv : Cmd → Except LedgerError LedgerCommand)
    (s : State) (c : Cmd) (e : LedgerError) (h : conv c = Except.error e) :
    LedgerInterpreter.start conv s c = (Except.error e, s) := by
  simp only [LedgerInterpreter.start, h]

theorem exchange_snd_cases (xparse : Bytes → Option Xpub) (s : State)
    (data : Bytes) :
    (LedgerInterpreter.exchange xparse s data).2 = s ∨
      ∃ r, (LedgerInterpreter.exchange xparse s data).2 = State.finished r := by
  cases s with
  | new => exact Or.inl rfl
  | finished r => exact Or.inl rfl
  | running command store =>
    simp only [LedgerInterpreter.exchange]
    repeat' split
    all_goals first
      | exact Or.inl rfl
      | exact Or.inr ⟨_, rfl⟩

theorem applyAct_ne_new {Cmd : Type} (conv : Cmd → Except LedgerError LedgerCommand)
    (xparse : Bytes → Option Xpub) (s : State) (a : Act Cmd)
    (hs : s ≠ State.new) : applyAct conv xparse s a ≠ State.new := by
  cases a with
  | start c =>
    simp only [applyAct]
    rcases h : conv c with e | cmd
    · rw [start_error conv s c e h]
      exact hs
    · rw [start_run conv s c cmd h]
      simp
  | exchange data =>
    simp only [applyAct]
    rcases exchange_snd_cases xparse s data with h | ⟨r, h⟩
    · rw [h]; exact hs
    · rw [h]; simp

theorem runActs_ne_new {Cmd : Type} (conv : Cmd → Except LedgerError LedgerCommand)
    (xparse : Bytes → Option Xpub) (s : State) (acts : List (Act Cmd))
    (hs : s ≠ State.new) : runActs conv xparse s acts ≠ State.new := by
  induction acts generalizing s with
  | nil => exact hs
  | cons a rest ih =>
    exact ih (applyAct conv xparse s a) (applyAct_ne_new conv xparse s a hs)

theorem applyAct_store_none {Cmd : Type}
    (conv : Cmd → Except LedgerError LedgerCommand)
    (xparse : Bytes → Option Xpub) (s : State) (a : Act Cmd)
    (hs : ∀ cmd st, s = State.running cmd st → st = none) :
    ∀ cmd st, applyAct conv xparse s a = State.running cmd st → st = none := by
  cases a with
  | start c =>
    intro cmd st h
    simp only [applyAct] at h
    rcases hc : conv c with e | cmd'
    · rw [start_error conv s c e hc] at h
      exact hs cmd st h
    · rw [start_run conv s c cmd' hc] at h
      injection h with h1 h2
      exact h2.symm
  | exchange data =>
    intro cmd st h
    simp only [applyAct] at h
    rcases exchange_snd_cases xparse s data with he | ⟨r, he⟩
    · rw [he] at h
      exact hs cmd st h
    · rw [he] at h
      exact State.noConfusion h

theorem runActs_store_none {Cmd : Type}
    (conv : Cmd → Except LedgerError LedgerCommand)
    (xparse : Bytes → Option Xpub) (acts : List (Act Cmd)) (s : State)
    (hs : ∀ cmd st, s = State.running cmd st → st = none) :
    ∀ cmd st, runActs conv xparse s acts = State.running cmd st → st = none := by
  induction acts generalizing s with
  | nil => exact hs
  | cons a rest ih =>
    exact ih (applyAct conv xparse s a) (applyAct_store_none conv xparse s a hs)

theorem exchange_interrupted_no_store (xparse : Bytes → Option Xpub)
    (cmd : LedgerCommand) (data : Bytes) (res : ApduResponse)
    (hdec : ApduResponse.tryFrom data = Except.ok res)
    (hsw : res.status_word = StatusWord.interruptedExecution) :
    LedgerInterpreter.exchange xparse (State.running cmd none) data =
      (Except.error LedgerError.interrupted, State.running cmd none) := by
  simp only [LedgerInterpreter.exchange, hdec]
  rw [if_pos hsw]

theorem exchange_fingerprint_done (xparse : Bytes → Option Xpub)
    (store : Option DelegatedStore) (data : Bytes) (res : ApduResponse)
    (hdec : ApduResponse.tryFrom data = Except.ok res)
    (hni : res.status_word ≠ StatusWord.interruptedExecution)
    (hlen : 4 ≤ res.data.length) :
    LedgerInterpreter.exchange xparse
        (State.running LedgerCommand.getMasterFingerprint store) data =
      (Except.ok none,
        State.finished (LedgerResponse.masterFingerprint (res.data.take 4))) := by
  simp only [LedgerInterpreter.exchange, hdec]
  rw [if_neg hni, if_neg (by omega : ¬ res.data.length < 4)]

theorem exchange_xpub_done (xparse : Bytes → Option Xpub)
    (store : Option DelegatedStore) (path : List Nat) (display : Bool)
    (data : Bytes) (res : ApduResponse) (x : Xpub)
    (hdec : ApduResponse.tryFrom data = Except.ok res)
    (hni : res.status_word ≠ StatusWord.interruptedExecution)
    (hx : xparse res.data = some x) :
    LedgerInterpreter.exchange xparse
        (State.running (LedgerCommand.getXpub path display) store) data =
      (Except.ok none, State.finished (LedgerResponse.xpub x)) := by
  simp only [LedgerInterpreter.exchange, hdec]
  rw [if_neg hni]
  simp only [hx]

theorem getD_map_of_lt (f : Bytes → Nat) (l : List Bytes) (i : Nat)
    (h : i < l.length) : (l.map f).getD i 0 = f (l.getD i []) := by
  simp [List.getD_eq_getElem?_getD, List.getElem?_map,
    List.getElem?_eq_getElem h]

/-- C1 counterexample: `start` performs no state check, so calling it on a
Finished session does move the session back to Running, contradicting the
claim that no transition leaves the Finished state. -/
theorem start_on_finished_reenters_running :
    (LedgerInterpreter.start Except.ok (State.finished LedgerResponse.taskDone)
        LedgerCommand.getMasterFingerprint).2 =
      State.running LedgerCommand.getMasterFingerprint none ∧
    State.running LedgerCommand.getMasterFingerprint none ≠
      State.finished LedgerResponse.taskDone :=
  ⟨rfl, by simp⟩

/-- C1 (amended): for every sequence of start/exchange calls no transition
returns the state to New, and exchange never leaves the Finished state
(Finished is terminal for exchange, and a Running state moves only to
itself or to Finished); start, however, unconditionally resets the session
to Running whenever command conversion succeeds — including from
Finished. -/
theorem session_no_return_to_new_amended {Cmd : Type}
    (conv : Cmd → Except LedgerError LedgerCommand)
    (xparse : Bytes → Option Xpub) (s : State) (acts : List (Act Cmd)) :
    (s ≠ State.new → runActs conv xparse s acts ≠ State.new) ∧
    (∀ (r : LedgerResponse) (data : Bytes),
      (LedgerInterpreter.exchange xparse (State.finished r) data).2 =
        State.finished r) ∧
    (∀ (cmd : LedgerCommand) (store : Option DelegatedStore) (data : Bytes),
      (LedgerInterpreter.exchange xparse (State.running cmd store) data).2 =
        State.running cmd store ∨
      ∃ r, (LedgerInterpreter.exchange xparse
        (State.running cmd store) data).2 = State.finished r) ∧
    (∀ (c : Cmd) (cmd : LedgerCommand), conv c = Except.ok cmd →
      (LedgerInterpreter.start conv s c).2 = State.running cmd none) :=
  ⟨runActs_ne_new conv xparse s acts, fun _ _ => rfl,
    fun cmd store data => exchange_snd_cases xparse (State.running cmd store) data,
    fun c cmd h => start_run conv s c cmd h⟩

/-- C1 witness for the amended theorem, at a Finished start state and a
two-call sequence. -/
theorem session_no_return_to_new_amended_witness :
    runActs Except.ok (fun _ => none) (State.finished LedgerResponse.taskDone)
        [Act.exchange [0x90, 0x00],
          Act.start LedgerCommand.getMasterFingerprint] ≠ State.new ∧
    (LedgerInterpreter.start Except.ok (State.finished LedgerResponse.taskDone)
        LedgerCommand.getMasterFingerprint).2 =
      State.running LedgerCommand.getMasterFingerprint none :=
  ⟨(session_no_return_to_new_amended Except.ok (fun _ => none)
      (State.finished LedgerResponse.taskDone)
      [Act.exchange [0x90, 0x00],
        Act.start LedgerCommand.getMasterFingerprint]).1 (by simp),
   (session_no_return_to_new_amended Except.ok (fun _ => none)
      (State.finished LedgerResponse.taskDone) []).2.2.2
      LedgerCommand.getMasterFingerprint LedgerCommand.getMasterFingerprint rfl⟩

/-- C2 counterexample: with OpenApp running (no store, as `start` builds
it), a well-formed response whose status word is InterruptedExecution
(`0xE000`, which is neither OK nor ClaNotSupported) fails with
`Interrupted`, not with `UnexpectedResult` as the claim requires of every
other status word. -/
theorem openApp_interrupted_counterexample :
    LedgerInterpreter.exchange (fun _ => none)
        (State.running (LedgerCommand.openApp Network.bitcoin) none)
        [0xE0, 0x00] =
      (Except.error LedgerError.interrupted,
        State.running (LedgerCommand.openApp Network.bitcoin) none) ∧
    (Except.error LedgerError.interrupted :
        Except LedgerError (Option ApduCommand)) ≠
      Except.error (LedgerError.unexpectedResult []) :=
  ⟨rfl, by simp⟩

/-- C2 (amended): for a session Running the OpenApp command with no store,
exchange with a well-formed response finishes with TaskDone exactly on
status word OK or ClaNotSupported; every other status word except
InterruptedExecution fails with UnexpectedResult carrying the payload;
InterruptedExecution instead fails with Interrupted. -/
theorem openApp_exchange_amended (xparse : Bytes → Option Xpub)
    (network : Network) (data : Bytes) (res : ApduResponse)
    (hdec : ApduResponse.tryFrom data = Except.ok res) :
    (res.status_word = StatusWord.ok ∨
        res.status_word = StatusWord.claNotSupported →
      LedgerInterpreter.exchange xparse
          (State.running (LedgerCommand.openApp network) none) data =
        (Except.ok none, State.finished LedgerResponse.taskDone)) ∧
    (res.status_word = StatusWord.interruptedExecution →
      LedgerInterpreter.exchange xparse
          (State.running (LedgerCommand.openApp network) none) data =
        (Except.error LedgerError.interrupted,
          State.running (LedgerCommand.openApp network) none)) ∧
    (res.status_word ≠ StatusWord.ok →
      res.status_word ≠ StatusWord.claNotSupported →
      res.status_word ≠ StatusWord.interruptedExecution →
      LedgerInterpreter.exchange xparse
          (State.running (LedgerCommand.openApp network) none) data =
        (Except.error (LedgerError.unexpectedResult res.data),
          State.running (LedgerCommand.openApp network) none)) := by
  refine ⟨?_, ?_, ?_⟩
  · intro hsw
    have hni : res.status_word ≠ StatusWord.interruptedExecution := by
      rcases hsw with h | h <;> rw [h] <;> simp
    simp only [LedgerInterpreter.exchange, hdec]
    rw [if_neg hni, if_pos hsw]
  · intro hsw
    exact exchange_interrupted_no_store xparse
      (LedgerCommand.openApp network) data res hdec hsw
  · intro hok hcla hni
    simp only [LedgerInterpreter.exchange, hdec]
    rw [if_neg hni, if_neg (by simp [hok, hcla] :
      ¬ (res.status_word = StatusWord.ok ∨
        res.status_word = StatusWord.claNotSupported))]

/-- C2 witness for the amended theorem, at status words `0x9000`, `0x6E00`,
`0xE000` and `0x6985`. -/
theorem openApp_exchange_amended_witness :
    LedgerInterpreter.exchange (fun _ => none)
        (State.running (LedgerCommand.openApp Network.bitcoin) none)
        [0x90, 0x00] =
      (Except.ok none, State.finished LedgerResponse.taskDone) ∧
    LedgerInterpreter.exchange (fun _ => none)
        (State.running (LedgerCommand.openApp Network.bitcoin) none)
        [0x6E, 0x00] =
      (Except.ok none, State.finished LedgerResponse.taskDone) ∧
    LedgerInterpreter.exchange (fun _ => none)
        (State.running (LedgerCommand.openApp Network.bitcoin) none)
        [0xE0, 0x00] =
      (Except.error LedgerError.interrupted,
        State.running (LedgerCommand.openApp Network.bitcoin) none) ∧
    LedgerInterpreter.exchange (fun _ => none)
        (State.running (LedgerCommand.openApp Network.bitcoin) none)
        [0x69, 0x85] =
      (Except.error (LedgerError.unexpectedResult []),
        State.running (LedgerCommand.openApp Network.bitcoin) none) :=
  ⟨(openApp_exchange_amended (fun _ => none) Network.bitcoin [0x90, 0x00]
      ⟨[], StatusWord.ok⟩ rfl).1 (Or.inl rfl),
   (openApp_exchange_amended (fun _ => none) Network.bitcoin [0x6E, 0x00]
      ⟨[], StatusWord.claNotSupported⟩ rfl).1 (Or.inr rfl),
   (openApp_exchange_amended (fun _ => none) Network.bitcoin [0xE0, 0x00]
      ⟨[], StatusWord.interruptedExecution⟩ rfl).2.1 rfl,
   (openApp_exchange_amended (fun _ => none) Network.bitcoin [0x69, 0x85]
      ⟨[], StatusWord.unknown 0x6985⟩ rfl).2.2
      (by decide) (by decide) (by decide)⟩

/-- C3: for a session Running GetMasterFingerprint, exchange with a
well-formed non-interrupted response finishes with exactly the first 4
payload bytes as fingerprint when the payload has at least 4 bytes (extra
bytes ignored), and fails with UnexpectedResult carrying exactly the
payload when it is shorter than 4 bytes. -/
theorem getMasterFingerprint_exchange_correct (xparse : Bytes → Option Xpub)
    (store : Option DelegatedStore) (data : Bytes) (res : ApduResponse)
    (hdec : ApduResponse.tryFrom data = Except.ok res)
    (hni : res.status_word ≠ StatusWord.interruptedExecution) :
    (4 ≤ res.data.length →
      LedgerInterpreter.exchange xparse
          (State.running LedgerCommand.getMasterFingerprint store) data =
        (Except.ok none,
          State.finished
            (LedgerResponse.masterFingerprint (res.data.take 4)))) ∧
    (res.data.length < 4 →
      LedgerInterpreter.exchange xparse
          (State.running LedgerCommand.getMasterFingerprint store) data =
        (Except.error (LedgerError.unexpectedResult res.data),
          State.running LedgerCommand.getMasterFingerprint store)) := by
  refine ⟨fun hlen =>
    exchange_fingerprint_done xparse store data res hdec hni hlen, ?_⟩
  intro hlen
  simp only [LedgerInterpreter.exchange, hdec]
  rw [if_neg hni, if_pos hlen]

/-- C3 witness: payload `AA BB CC DD` plus one extra byte yields the
fingerprint `AA BB CC DD`; a 1-byte payload fails carrying exactly it. -/
theorem getMasterFingerprint_exchange_correct_witness :
    LedgerInterpreter.exchange (fun _ => none)
        (State.running LedgerCommand.getMasterFingerprint none)
        [0xAA, 0xBB, 0xCC, 0xDD, 0x01, 0x90, 0x00] =
      (Except.ok none,
        State.finished (LedgerResponse.masterFingerprint
          ([0xAA, 0xBB, 0xCC, 0xDD, 0x01].take 4))) ∧
    LedgerInterpreter.exchange (fun _ => none)
        (State.running LedgerCommand.getMasterFingerprint none)
        [0x01, 0x90, 0x00] =
      (Except.error (LedgerError.unexpectedResult [0x01]),
        State.running LedgerCommand.getMasterFingerprint none) :=
  ⟨(getMasterFingerprint_exchange_correct (fun _ => none) none
      [0xAA, 0xBB, 0xCC, 0xDD, 0x01, 0x90, 0x00]
      ⟨[0xAA, 0xBB, 0xCC, 0xDD, 0x01], StatusWord.ok⟩ rfl (by decide)).1
      (by decide),
   (getMasterFingerprint_exchange_correct (fun _ => none) none
      [0x01, 0x90, 0x00] ⟨[0x01], StatusWord.ok⟩ rfl (by decide)).2
      (by decide)⟩

/-- C4: for every Running session whose command has no delegated store,
exchange with a response carrying status word InterruptedExecution fails
with Interrupted and produces no further command frame (the result is an
error, not a continuation). -/
theorem interrupted_no_store_fails (xparse : Bytes → Option Xpub)
    (cmd : LedgerCommand) (data : Bytes) (res : ApduResponse)
    (hdec : ApduResponse.tryFrom data = Except.ok res)
    (hsw : res.status_word = StatusWord.interruptedExecution) :
    LedgerInterpreter.exchange xparse (State.running cmd none) data =
      (Except.error LedgerError.interrupted, State.running cmd none) :=
  exchange_interrupted_no_store xparse cmd data res hdec hsw

/-- C4 witness at the GetXpub command and a bare `0xE000` response. -/
theorem interrupted_no_store_fails_witness :
    LedgerInterpreter.exchange (fun _ => none)
        (State.running (LedgerCommand.getXpub [44] true) none) [0xE0, 0x00] =
      (Except.error LedgerError.interrupted,
        State.running (LedgerCommand.getXpub [44] true) none) :=
  interrupted_no_store_fails (fun _ => none) (LedgerCommand.getXpub [44] true)
    [0xE0, 0x00] ⟨[], StatusWord.interruptedExecution⟩ rfl rfl

/-- C5: for every Running session, exchange with an input shorter than the
2-byte status-word width fails with the malformed-frame codec error and
leaves the session state exactly as before (same command, same store);
more generally every decode failure of the response frame leaves the
state unchanged. -/
theorem short_response_leaves_state (xparse : Bytes → Option Xpub)
    (cmd : LedgerCommand) (store : Option DelegatedStore) (data : Bytes) :
    (data.length < 2 →
      LedgerInterpreter.exchange xparse (State.running cmd store) data =
        (Except.error (LedgerError.apdu ApduError.malformed),
          State.running cmd store)) ∧
    (∀ e, ApduResponse.tryFrom data = Except.error e →
      LedgerInterpreter.exchange xparse (State.running cmd store) data =
        (Except.error (LedgerError.apdu e), State.running cmd store)) := by
  constructor
  · intro hlen
    have hdec : ApduResponse.tryFrom data = Except.error ApduError.malformed := by
      unfold ApduResponse.tryFrom
      rw [if_pos hlen]
    simp only [LedgerInterpreter.exchange, hdec]
  · intro e hdec
    simp only [LedgerInterpreter.exchange, hdec]

/-- C5 witness at a 1-byte input with OpenApp running. -/
theorem short_response_leaves_state_witness :
    LedgerInterpreter.exchange (fun _ => none)
        (State.running (LedgerCommand.openApp Network.bitcoin) none) [0x05] =
      (Except.error (LedgerError.apdu ApduError.malformed),
        State.running (LedgerCommand.openApp Network.bitcoin) none) :=
  (short_response_leaves_state (fun _ => none)
      (LedgerCommand.openApp Network.bitcoin) none [0x05]).1 (by decide)

/-- C6: end on a Finished session yields the result; end on New or on any
Running session — in particular immediately after a successful start, for
every domain command — fails with NoErrorOrResult. -/
theorem end_requires_finished {Cmd : Type}
    (conv : Cmd → Except LedgerError LedgerCommand) (s : State) :
    (∀ r, LedgerInterpreter.endSession (State.finished r) = Except.ok r) ∧
    LedgerInterpreter.endSession State.new =
      Except.error LedgerError.noErrorOrResult ∧
    (∀ cmd store, LedgerInterpreter.endSession (State.running cmd store) =
      Except.error LedgerError.noErrorOrResult) ∧
    (∀ (c : Cmd) (cmd : LedgerCommand), conv c = Except.ok cmd →
      LedgerInterpreter.endSession (LedgerInterpreter.start conv s c).2 =
        Except.error LedgerError.noErrorOrResult) := by
  refine ⟨fun r => rfl, rfl, fun cmd store => rfl, fun c cmd h => ?_⟩
  rw [start_run conv s c cmd h]
  rfl

/-- C6 witness: end directly after start fails, for each of the three
domain commands, and end on a Finished session succeeds. -/
theorem end_requires_finished_witness :
    LedgerInterpreter.endSession (State.finished LedgerResponse.taskDone) =
      Except.ok LedgerResponse.taskDone ∧
    LedgerInterpreter.endSession
        (LedgerInterpreter.start Except.ok State.new
          (LedgerCommand.openApp Network.bitcoin)).2 =
      Except.error LedgerError.noErrorOrResult ∧
    LedgerInterpreter.endSession
        (LedgerInterpreter.start Except.ok State.new
          LedgerCommand.getMasterFingerprint).2 =
      Except.error LedgerError.noErrorOrResult ∧
    LedgerInterpreter.endSession
        (LedgerInterpreter.start Except.ok State.new
          (LedgerCommand.getXpub [44] false)).2 =
      Except.error LedgerError.noErrorOrResult :=
  ⟨(end_requires_finished Except.ok State.new).1 LedgerResponse.taskDone,
   (end_requires_finished Except.ok State.new).2.2.2
     (LedgerCommand.openApp Network.bitcoin)
     (LedgerCommand.openApp Network.bitcoin) rfl,
   (end_requires_finished Except.ok State.new).2.2.2
     LedgerCommand.getMasterFingerprint LedgerCommand.getMasterFingerprint rfl,
   (end_requires_finished Except.ok State.new).2.2.2
     (LedgerCommand.getXpub [44] false) (LedgerCommand.getXpub [44] false) rfl⟩

/-- C7: for every Merkle tree and every index below the leaf count,
`proof` returns the stored leaf together with a sibling-hash path that
recombines to the tree's root; for every index at or beyond the leaf
count it returns the out-of-range error (total, no panic, no path). -/
theorem merkle_proof_roundtrip (hLeaf : Bytes → Nat) (hNode : Nat → Nat → Nat)
    (t : MerkleTree) (i : Nat) :
    (i < t.leaves.length →
      MerkleTree.proof hLeaf hNode t i =
        Except.ok (t.leaves.getD i [],
          merklePath hNode (t.leaves.map hLeaf) i) ∧
      verifyPath hNode (hLeaf (t.leaves.getD i []))
          (merklePath hNode (t.leaves.map hLeaf) i) =
        MerkleTree.root hLeaf hNode t) ∧
    (t.leaves.length ≤ i →
      MerkleTree.proof hLeaf hNode t i = Except.error StoreError.outOfRange) := by
  constructor
  · intro h
    refine ⟨by rw [MerkleTree.proof, if_pos h], ?_⟩
    have hlen : i < (t.leaves.map hLeaf).length := by
      rw [List.length_map]; exact h
    have hv := verifyPath_merklePath hNode (t.leaves.map hLeaf) i hlen
    rw [getD_map_of_lt hLeaf t.leaves i h] at hv
    exact hv
  · intro h
    rw [MerkleTree.proof, if_neg (by omega)]

/-- C7 witness on a concrete 3-leaf tree with concrete hash functions, at
the in-range index 2 and the out-of-range index 5. -/
theorem merkle_proof_roundtrip_witness :
    (MerkleTree.proof (fun l => l.sum) (fun a b => a + 2 * b + 1)
        ⟨[[1], [2], [3]]⟩ 2 =
      Except.ok ((⟨[[1], [2], [3]]⟩ : MerkleTree).leaves.getD 2 [],
        merklePath (fun a b => a + 2 * b + 1)
          ((⟨[[1], [2], [3]]⟩ : MerkleTree).leaves.map (fun l => l.sum)) 2) ∧
      verifyPath (fun a b => a + 2 * b + 1)
          ((fun l : Bytes => l.sum)
            ((⟨[[1], [2], [3]]⟩ : MerkleTree).leaves.getD 2 []))
          (merklePath (fun a b => a + 2 * b + 1)
            ((⟨[[1], [2], [3]]⟩ : MerkleTree).leaves.map (fun l => l.sum)) 2) =
        MerkleTree.root (fun l => l.sum) (fun a b => a + 2 * b + 1)
          ⟨[[1], [2], [3]]⟩) ∧
    MerkleTree.proof (fun l => l.sum) (fun a b => a + 2 * b + 1)
        ⟨[[1], [2], [3]]⟩ 5 =
      Except.error StoreError.outOfRange :=
  ⟨(merkle_proof_roundtrip (fun l => l.sum) (fun a b => a + 2 * b + 1)
      ⟨[[1], [2], [3]]⟩ 2).1 (by decide),
   (merkle_proof_roundtrip (fun l => l.sum) (fun a b => a + 2 * b + 1)
      ⟨[[1], [2], [3]]⟩ 5).2 (by decide)⟩

/-- C8: start registers no delegated store for any of the three command
variants; every Running state reachable from New therefore carries no
store, and any InterruptedExecution response received in such a session
fails with Interrupted. -/
theorem start_registers_no_store {Cmd : Type}
    (conv : Cmd → Except LedgerError LedgerCommand)
    (xparse : Bytes → Option Xpub) :
    (∀ (s : State) (c : Cmd) (cmd : LedgerCommand), conv c = Except.ok cmd →
      (LedgerInterpreter.start conv s c).2 = State.running cmd none) ∧
    (∀ (acts : List (Act Cmd)) (cmd : LedgerCommand)
        (store : Option DelegatedStore),
      runActs conv xparse State.new acts = State.running cmd store →
      store = none) ∧
    (∀ (acts : List (Act Cmd)) (cmd : LedgerCommand)
        (store : Option DelegatedStore) (data : Bytes) (res : ApduResponse),
      runActs conv xparse State.new acts = State.running cmd store →
      ApduResponse.tryFrom data = Except.ok res →
      res.status_word = StatusWord.interruptedExecution →
      LedgerInterpreter.exchange xparse
          (runActs conv xparse State.new acts) data =
        (Except.error LedgerError.interrupted, State.running cmd none)) := by
  refine ⟨fun s c cmd h => start_run conv s c cmd h, ?_, ?_⟩
  · intro acts cmd store hrun
    exact runActs_store_none conv xparse acts State.new
      (fun _ _ h => State.noConfusion h) cmd store hrun
  · intro acts cmd store data res hrun hdec hsw
    have hst : store = none := runActs_store_none conv xparse acts State.new
      (fun _ _ h => State.noConfusion h) cmd store hrun
    subst hst
    rw [hrun]
    exact exchange_interrupted_no_store xparse cmd data res hdec hsw

/-- C8 witness: after starting GetMasterFingerprint from New, an
InterruptedExecution response fails with Interrupted. -/
theorem start_registers_no_store_witness :
    LedgerInterpreter.exchange (fun _ => none)
        (runActs Except.ok (fun _ => none) State.new
          [Act.start LedgerCommand.getMasterFingerprint]) [0xE0, 0x00] =
      (Except.error LedgerError.interrupted,
        State.running LedgerCommand.getMasterFingerprint none) :=
  (start_registers_no_store Except.ok (fun _ => none)).2.2
    [Act.start LedgerCommand.getMasterFingerprint]
    LedgerCommand.getMasterFingerprint none [0xE0, 0x00]
    ⟨[], StatusWord.interruptedExecution⟩ rfl rfl rfl

/-- C9: for GetMasterFingerprint and GetXpub the status word is inspected
only to detect InterruptedExecution: under any other status word —
including device failure codes — a well-formed payload still decodes and
the session finishes successfully. -/
theorem status_word_not_inspected_after_decode (xparse : Bytes → Option Xpub)
    (store : Option DelegatedStore) (data : Bytes) (res : ApduResponse)
    (hdec : ApduResponse.tryFrom data = Except.ok res)
    (hni : res.status_word ≠ StatusWord.interruptedExecution) :
    (4 ≤ res.data.length →
      LedgerInterpreter.exchange xparse
          (State.running LedgerCommand.getMasterFingerprint store) data =
        (Except.ok none,
          State.finished
            (LedgerResponse.masterFingerprint (res.data.take 4)))) ∧
    (∀ (path : List Nat) (display : Bool) (x : Xpub),
      xparse res.data = some x →
      LedgerInterpreter.exchange xparse
          (State.running (LedgerCommand.getXpub path display) store) data =
        (Except.ok none, State.finished (LedgerResponse.xpub x))) :=
  ⟨fun hlen => exchange_fingerprint_done xparse store data res hdec hni hlen,
   fun path display x hx =>
     exchange_xpub_done xparse store path display data res x hdec hni hx⟩

/-- C9 witness: a fingerprint decodes under failure status word `0x6985`,
and an xpub decodes under `0x6E00`. -/
theorem status_word_not_inspected_after_decode_witness :
    LedgerInterpreter.exchange (fun _ => none)
        (State.running LedgerCommand.getMasterFingerprint none)
        [0xAA, 0xBB, 0xCC, 0xDD, 0x69, 0x85] =
      (Except.ok none,
        State.finished (LedgerResponse.masterFingerprint
          ([0xAA, 0xBB, 0xCC, 0xDD].take 4))) ∧
    LedgerInterpreter.exchange (fun d => some d)
        (State.running (LedgerCommand.getXpub [44] true) none)
        [0x78, 0x6E, 0x00] =
      (Except.ok none, State.finished (LedgerResponse.xpub [0x78])) :=
  ⟨(status_word_not_inspected_after_decode (fun _ => none) none
      [0xAA, 0xBB, 0xCC, 0xDD, 0x69, 0x85]
      ⟨[0xAA, 0xBB, 0xCC, 0xDD], StatusWord.unknown 0x6985⟩ rfl (by decide)).1
      (by decide),
   (status_word_not_inspected_after_decode (fun d => some d) none
      [0x78, 0x6E, 0x00] ⟨[0x78], StatusWord.claNotSupported⟩ rfl
      (by decide)).2 [44] true [0x78] rfl⟩

/-- C10: exchange called on a New or Finished session returns `Ok(None)`
for every input, malformed ones included, and leaves the state unchanged. -/
theorem exchange_outside_running_noop (xparse : Bytes → Option Xpub)
    (data : Bytes) :
    LedgerInterpreter.exchange xparse State.new data =
      (Except.ok none, State.new) ∧
    ∀ r, LedgerInterpreter.exchange xparse (State.finished r) data =
      (Except.ok none, State.finished r) :=
  ⟨rfl, fun _ => rfl⟩

end Bhwi
